import Mathlib

/-!
Verification of the QRIS soundbox router worker: a shallow embedding of its
data model (stores, transactions, device heartbeats), of the transaction
claim protocol (`GET /next-transaction`), of transaction creation
(`POST /qris`), of the admin store upsert (`POST /admin/stores`), of the
schema adapter (`getHeartbeatJoinExpr` / `pickHeartbeatKey`) and of the
offline-alert scheduler (`scheduled`), together with proofs of the
behavioural properties stated in the specification.

SQLite machine integers are modelled as `Int`/`Nat`; timestamps as `Int`
milliseconds; JavaScript numbers (only used for the `amount` field of
`POST /qris`) as an inductive over `ℚ` plus the non-finite values; the
database tables as lists of rows in insertion order.
-/

namespace QrisWorker

/-- A row of the `stores` table: `store_id` is the primary key,
`device_token` the device credential, `enabled` the 0/1 gate. -/
structure Store where
  store_id : String
  name : String
  device_token : String
  enabled : Nat
  deriving Repr, DecidableEq

/-- A row of the `transactions` table: `id` is the autoincrement primary
key (defines the queue order), `played` the 0/1 claimed flag. -/
structure Txn where
  id : Nat
  transaction_id : String
  store_id : String
  amount : Int
  played : Nat
  deriving Repr, DecidableEq

/-- A row of the `device_heartbeat` table.  Its column set varies per
deployment; `key` holds the value of whichever identity column the schema
adapter resolved, the remaining fields are `none` when the corresponding
column is absent from the discovered schema. -/
structure HBRow where
  key : String
  hb_store_id : Option String
  last_seen : Option Int
  ip_address : Option String
  firmware_version : Option String
  deriving Repr, DecidableEq

/-- The shared storage state: the three tables the worker touches. -/
structure DBState where
  stores : List Store
  txns : List Txn
  hbs : List HBRow
  deriving Repr, DecidableEq

/-- The responses the embedded handlers can produce.  `textRes` carries the
plain-text error body and its HTTP status; the `json*` constructors are the
three JSON success shapes (status 200) relevant to the claims. -/
inductive HttpResponse where
  /-- `text(msg, status)` — plain text with an explicit status. -/
  | textRes (body : String) (status : Nat)
  /-- `{ok:true, transaction_id}` from `POST /qris`. -/
  | jsonCreated (transaction_id : String)
  /-- `{available:true, transaction_id, amount, store_id}`. -/
  | jsonAvail (transaction_id : String) (amount : Int) (store_id : String)
  /-- `{available:false}`. -/
  | jsonNoTx
  /-- `{ok:true, store_id, name, device_token, enabled:1}` from the admin upsert. -/
  | jsonStoreUpserted (store_id name device_token : String)
  deriving Repr, DecidableEq

/-- The HTTP status of a response (`json` defaults to 200 in the source). -/
def HttpResponse.status : HttpResponse → Nat
  | .textRes _ s => s
  | _ => 200

/- ===== Schema adapter ===== -/

/-- `getHeartbeatJoinExpr(cols)`: the SQL join predicate linking a store to
its heartbeat row, resolved from the discovered column-name set by an
ordered preference list; `none` when no candidate column exists. -/
def getHeartbeatJoinExpr (cols : List String) : Option String :=
  if cols.isEmpty then none
  else if cols.contains "device_token" then some "s.device_token = d.device_token"
  else if cols.contains "device_id" then some "s.device_token = d.device_id"
  else if cols.contains "token" then some "s.device_token = d.token"
  else if cols.contains "store_id" then some "s.store_id = d.store_id"
  else none

/-- `pickHeartbeatKey(cols)`: the heartbeat upsert key column, resolved from
the discovered column-name set; `none` when no candidate column exists. -/
def pickHeartbeatKey (cols : List String) : Option String :=
  if cols.isEmpty then none
  else if cols.contains "device_id" then some "device_id"
  else if cols.contains "device_token" then some "device_token"
  else if cols.contains "token" then some "token"
  else if cols.contains "store_id" then some "store_id"
  else none

/- ===== Transaction queue primitives ===== -/

/-- The rows `SELECT ... FROM transactions WHERE played=0 AND store_id=?`
would return, in table order. -/
def pendingFor (txns : List Txn) (sid : String) : List Txn :=
  txns.filter (fun t => t.played == 0 && t.store_id == sid)

/-- Fold computing the row of least `id` (`ORDER BY id ASC LIMIT 1`). -/
def minByIdGo (acc : Option Txn) (l : List Txn) : Option Txn :=
  l.foldl (fun acc t =>
    match acc with
    | none => some t
    | some u => if t.id < u.id then some t else some u) acc

/-- `SELECT id, transaction_id, amount FROM transactions WHERE played=0 AND
store_id=? ORDER BY id ASC LIMIT 1`. -/
def oldestPending (txns : List Txn) (sid : String) : Option Txn :=
  minByIdGo none (pendingFor txns sid)

/-- `UPDATE transactions SET played=1 WHERE id=? AND played=0`: returns
whether the number of affected rows is nonzero (`changes === 1` in the
source, since `id` is a primary key) together with the updated table. -/
def casClaim (txns : List Txn) (i : Nat) : Bool × List Txn :=
  (txns.any (fun t => t.id == i && t.played == 0),
   txns.map (fun t => if t.id == i && t.played == 0 then { t with played := 1 } else t))

/-- Outcome of the claim loop: either the claimed row or the empty-queue
result `{available:false}`. -/
inductive ClaimResult where
  | available (row : Txn)
  | notAvailable
  deriving Repr, DecidableEq

/-- The JSON body built from the claim-loop outcome:
`{available:true, transaction_id, amount, store_id}` or `{available:false}`. -/
def respOfClaim (sid : String) : ClaimResult → HttpResponse
  | .available row => .jsonAvail row.transaction_id row.amount sid
  | .notAvailable => .jsonNoTx

/-- The `for (let i = 0; i < 3; i++)` claim loop of `/next-transaction`,
parametrised by the remaining fuel and by an interference function
`interf`, which stands for the writes other concurrent requests commit
between this call's read and its conditional update (the identity function
recovers the uncontended sequential execution).  Besides the result and the
final table it returns the list of outcomes of the conditional updates it
attempted, in order. -/
def claimLoopI (interf : Nat → List Txn → List Txn) (sid : String) :
    Nat → List Txn → ClaimResult × List Txn × List Bool
  | 0, txns => (.notAvailable, txns, [])
  | n + 1, txns =>
    match oldestPending txns sid with
    | none => (.notAvailable, txns, [])
    | some row =>
      let txns1 := interf (n + 1) txns
      let r1 := casClaim txns1 row.id
      if r1.1 then (.available row, r1.2, [true])
      else
        let r := claimLoopI interf sid n r1.2
        (r.1, r.2.1, false :: r.2.2)

/-- The claim loop as it executes without concurrent interference. -/
def claimLoop (sid : String) (n : Nat) (txns : List Txn) :
    ClaimResult × List Txn × List Bool :=
  claimLoopI (fun _ t => t) sid n txns

/-- The `id` the storage assigns to the next inserted transaction row
(autoincrement primary key). -/
def nextId (txns : List Txn) : Nat :=
  txns.foldl (fun m t => max m t.id) 0 + 1

/-- The write operations the worker ever issues against the
`transactions` table: the `POST /qris` insert (new row with `played=0`),
the claim loop's conditional update, and the admin per-store delete
(`POST /admin/transactions/clear`). -/
inductive TxOp where
  | create (sid txid : String) (amount : Int)
  | cas (i : Nat)
  | clear (sid : String)
  deriving Repr, DecidableEq

/-- Effect of one write operation on the `transactions` table. -/
def applyTxOp (txns : List Txn) : TxOp → List Txn
  | .create sid txid amount =>
    txns ++ [{ id := nextId txns, transaction_id := txid, store_id := sid,
               amount := amount, played := 0 }]
  | .cas i => (casClaim txns i).2
  | .clear sid => txns.filter (fun t => !(t.store_id == sid))

/-- JavaScript `String.prototype.trim()` as the handlers apply it to
request fields: strip leading and trailing whitespace. -/
def jsTrim (s : String) : String :=
  ⟨((s.data.dropWhile Char.isWhitespace).reverse.dropWhile
      Char.isWhitespace).reverse⟩

/- ===== JavaScript numbers for the /qris amount ===== -/

/-- A JavaScript number as far as `POST /qris` consumes it: `NaN`, the two
infinities, or a finite value (modelled as a rational; every finite double
is one). -/
inductive JSNum where
  | nan
  | posInf
  | negInf
  | num (q : ℚ)
  deriving Repr, DecidableEq

/-- The validation `Number.isFinite(amount) && amount > 0` that
`POST /qris` requires (the source rejects on its negation). -/
def amountOk : JSNum → Bool
  | .num q => decide (0 < q)
  | _ => false

/-- `Math.floor` as applied to the validated finite amount. -/
def jsFloor : JSNum → Int
  | .num q => ⌊q⌋
  | _ => 0

/-- `SELECT ... FROM stores WHERE store_id=? LIMIT 1`. -/
def findStore (stores : List Store) (sid : String) : Option Store :=
  stores.find? (fun s => s.store_id == sid)

/-- The `POST /qris` handler after its API-key gate: validates the body,
checks the store is registered and enabled, and inserts one pending
transaction with the floored amount.  `freshTx` stands for the generated
`makeTransactionId()` value. -/
def qrisHandler (db : DBState) (storeIdRaw : String) (amount : JSNum)
    (freshTx : String) : HttpResponse × DBState :=
  if (jsTrim storeIdRaw) == "" then (.textRes "store_id required" 400, db)
  else if !(amountOk amount) then
    (.textRes "amount must be positive number" 400, db)
  else
    match findStore db.stores (jsTrim storeIdRaw) with
    | none => (.textRes "Store disabled or not registered" 403, db)
    | some store =>
      if store.enabled != 1 then
        (.textRes "Store disabled or not registered" 403, db)
      else
        (.jsonCreated freshTx,
         { db with txns := db.txns ++
            [⟨nextId db.txns, freshTx, (jsTrim storeIdRaw), jsFloor amount, 0⟩] })

/- ===== Heartbeat recorder and the /next-transaction handler ===== -/

/-- The heartbeat upsert of `/next-transaction`: keyed by the adapter's
resolved key column (its value is the store id when the key column is
`store_id`, the device token otherwise), it populates only the columns the
discovered schema holds and is a no-op when no key column resolves. -/
def recordHeartbeat (cols : List String) (sid token ip fw : String)
    (now : Int) (hbs : List HBRow) : List HBRow :=
  match pickHeartbeatKey cols with
  | none => hbs
  | some keyCol =>
    if hbs.any (fun r => r.key == (if keyCol == "store_id" then sid else token)) then
      hbs.map (fun r =>
        if r.key == (if keyCol == "store_id" then sid else token) then
          { key := r.key
            hb_store_id :=
              if cols.contains "store_id" && !(keyCol == "store_id") then some sid
              else r.hb_store_id
            last_seen := if cols.contains "last_seen" then some now else r.last_seen
            ip_address := if cols.contains "ip_address" then some ip else r.ip_address
            firmware_version :=
              if cols.contains "firmware_version" then some fw
              else r.firmware_version }
        else r)
    else
      hbs ++ [{ key := if keyCol == "store_id" then sid else token
                hb_store_id :=
                  if cols.contains "store_id" && !(keyCol == "store_id") then some sid
                  else none
                last_seen := if cols.contains "last_seen" then some now else none
                ip_address := if cols.contains "ip_address" then some ip else none
                firmware_version :=
                  if cols.contains "firmware_version" then some fw else none }]

/-- The `GET /next-transaction` handler: `store_id` and credential gates,
best-effort heartbeat (`hbFail` injects a storage error thrown by the
heartbeat statement, which the source catches and logs), then the claim
loop.  `interf` is the concurrent interference seen by the claim loop. -/
def nextTxHandler (interf : Nat → List Txn → List Txn) (cols : List String)
    (hbFail : Bool) (ip fw : String) (now : Int) (db : DBState)
    (sidRaw tokenHdr : String) : HttpResponse × DBState :=
  if (jsTrim sidRaw) == "" then (.textRes "store_id required" 400, db)
  else if (jsTrim tokenHdr) == "" then (.textRes "x-device-token required" 401, db)
  else
    match findStore db.stores (jsTrim sidRaw) with
    | none => (.textRes "Invalid or disabled store" 403, db)
    | some store =>
      if store.enabled != 1 then (.textRes "Invalid or disabled store" 403, db)
      else if (jsTrim store.device_token) != (jsTrim tokenHdr) then
        (.textRes "Unauthorized" 401, db)
      else
        (respOfClaim (jsTrim sidRaw) (claimLoopI interf (jsTrim sidRaw) 3 db.txns).1,
         { db with
             hbs :=
               if hbFail then db.hbs
               else recordHeartbeat cols (jsTrim sidRaw) (jsTrim tokenHdr) ip fw now db.hbs
             txns := (claimLoopI interf (jsTrim sidRaw) 3 db.txns).2.1 })

/- ===== Offline alert scheduler ===== -/

/-- One row of the scheduler's join of enabled stores to their heartbeat
rows: store name and id with the joined `last_seen` timestamp, in
milliseconds. -/
structure JoinedRow where
  name : String
  store_id : String
  enabled : Nat
  last_seen : Int
  deriving Repr, DecidableEq

/-- The `WHERE` clause of the scheduler's query: an enabled store whose
`last_seen` is older than the 30-minute staleness threshold but newer than
the 24-hour suppression ceiling. -/
def offlineWindow (now : Int) (r : JoinedRow) : Bool :=
  r.enabled == 1 && decide (r.last_seen < now - 30 * 60000) &&
    decide (r.last_seen > now - 24 * 3600000)

/-- The rows the scheduler's query returns. -/
def offlineSelect (now : Int) (rows : List JoinedRow) : List JoinedRow :=
  rows.filter (offlineWindow now)

/-- The alerts one scheduler run dispatches: store name and
`Math.floor((now - lastSeen) / 60000)` offline minutes per selected
device. -/
def scheduledAlerts (now : Int) (rows : List JoinedRow) : List (String × Int) :=
  (offlineSelect now rows).map
    (fun r => (r.name, Int.fdiv (now - r.last_seen) 60000))

/-- A whole `scheduled` run: skipped entirely when the schema adapter
resolves no join predicate. -/
def scheduledJob (cols : List String) (now : Int) (rows : List JoinedRow) :
    List (String × Int) :=
  match getHeartbeatJoinExpr cols with
  | none => []
  | some _ => scheduledAlerts now rows

/- ===== Admin store upsert ===== -/

/-- One character admitted by the `/^[a-z0-9._-]+$/i` check. -/
def validStoreIdChar (c : Char) : Bool :=
  c.isAlpha || c.isDigit || c == Char.ofNat 46 || c == Char.ofNat 95 ||
    c == Char.ofNat 45

/-- The `/^[a-z0-9._-]+$/i` test on a whole `store_id`. -/
def validStoreId (s : String) : Bool :=
  !(s.isEmpty) && s.toList.all validStoreIdChar

/-- The token stored by the admin upsert:
`providedToken || existing?.device_token || fresh`. -/
def upsertToken (stores : List Store) (store_id providedToken freshToken : String) :
    String :=
  if providedToken != "" then providedToken
  else
    match findStore stores store_id with
    | some s => if s.device_token != "" then s.device_token else freshToken
    | none => freshToken

/-- `INSERT INTO stores ... VALUES (?, ?, ?, 1) ON CONFLICT(store_id) DO
UPDATE SET name=excluded.name, enabled=1, device_token=excluded.device_token`. -/
def upsertStores (stores : List Store) (store_id name device_token : String) :
    List Store :=
  if stores.any (fun s => s.store_id == store_id) then
    stores.map (fun s =>
      if s.store_id == store_id then ⟨s.store_id, name, device_token, 1⟩ else s)
  else stores ++ [⟨store_id, name, device_token, 1⟩]

/-- The `POST /admin/stores` handler of the first worker variant, after
its admin gate.  `freshToken` stands for the generated `sb_${randHex(16)}`
value. -/
def adminUpsertStore (db : DBState)
    (storeIdRaw nameRaw tokenRaw freshToken : String) :
    HttpResponse × DBState :=
  if (jsTrim storeIdRaw) == "" || (jsTrim nameRaw) == "" then
    (.textRes "store_id, name required" 400, db)
  else if !(validStoreId (jsTrim storeIdRaw)) then
    (.textRes "store_id invalid" 400, db)
  else
    (.jsonStoreUpserted (jsTrim storeIdRaw) (jsTrim nameRaw)
       (upsertToken db.stores (jsTrim storeIdRaw) (jsTrim tokenRaw) freshToken),
     { db with
         stores := upsertStores db.stores (jsTrim storeIdRaw) (jsTrim nameRaw)
           (upsertToken db.stores (jsTrim storeIdRaw) (jsTrim tokenRaw) freshToken) })

/- ===== Interleaved execution of many concurrent claim calls ===== -/

/-- The control point of one in-flight claim call against a fixed store:
about to run the oldest-pending read with some fuel left, about to run the
conditional update on a row it has read, or finished with a result.  The
two storage statements of the loop body are the atomic steps; anything can
interleave between them. -/
inductive PollerPhase where
  | start (fuel : Nat)
  | casPh (fuel : Nat) (row : Txn)
  | donePh (res : ClaimResult)
  deriving Repr, DecidableEq

/-- One atomic step of one claim call: either its read or its conditional
update, exactly as in the loop body of `/next-transaction`. -/
def stepPoller (sid : String) (txns : List Txn) :
    PollerPhase → PollerPhase × List Txn
  | .start 0 => (.donePh .notAvailable, txns)
  | .start (n + 1) =>
    match oldestPending txns sid with
    | none => (.donePh .notAvailable, txns)
    | some row => (.casPh n row, txns)
  | .casPh n row =>
    if (casClaim txns row.id).1 then (.donePh (.available row), (casClaim txns row.id).2)
    else (.start n, (casClaim txns row.id).2)
  | .donePh r => (.donePh r, txns)

/-- The shared transactions table together with the control points of all
in-flight claim calls. -/
structure SysState where
  txns : List Txn
  phases : List PollerPhase
  deriving Repr, DecidableEq

/-- Let poller `k` perform its next atomic storage statement. -/
def schedStep (sid : String) (st : SysState) (k : Nat) : SysState :=
  if h : k < st.phases.length then
    { txns := (stepPoller sid st.txns (st.phases.get ⟨k, h⟩)).2,
      phases := st.phases.set k (stepPoller sid st.txns (st.phases.get ⟨k, h⟩)).1 }
  else st

/-- Run an arbitrary interleaving: the schedule lists which poller moves
at each instant. -/
def runSched (sid : String) (st : SysState) (sched : List Nat) : SysState :=
  sched.foldl (schedStep sid) st

/-- The row a finished claim call returned with `available:true`, if any. -/
def winnerRow : PollerPhase → Option Txn
  | .donePh (.available row) => some row
  | _ => none

/-- Whether a claim call has finished with `available:true`. -/
def isWinner (ph : PollerPhase) : Bool := (winnerRow ph).isSome

/-- A row value a claim call can be holding: it descends from an initially
pending transaction of the polled store. -/
def GoodRow (db0 : List Txn) (sid : String) (row : Txn) : Prop :=
  ∃ r0 ∈ db0, r0.id = row.id ∧ r0.transaction_id = row.transaction_id ∧
    r0.store_id = sid ∧ r0.played = 0

/-- The inductive invariant of the interleaved execution: (A) every table
row descends from an initial row with the same identity columns, pending
only if initially pending; (E) every row held before its conditional
update is good; (W) every returned row is good and no longer pending; (D)
two distinct finished winners hold rows with distinct `id`s; (B) the
number of winners plus the remaining pending queue never exceeds the
initial pending queue. -/
def ClaimInv (db0 : List Txn) (sid : String) (st : SysState) : Prop :=
  (∀ t ∈ st.txns, ∃ t0 ∈ db0, t0.id = t.id ∧
      t0.transaction_id = t.transaction_id ∧ t0.store_id = t.store_id ∧
      (t.played = 0 → t0.played = 0)) ∧
  (∀ ph ∈ st.phases, ∀ n row, ph = .casPh n row → GoodRow db0 sid row) ∧
  (∀ ph ∈ st.phases, ∀ row, ph = .donePh (.available row) →
      GoodRow db0 sid row ∧ ∀ t ∈ st.txns, t.id = row.id → t.played ≠ 0) ∧
  (∀ i j, ∀ hi : i < st.phases.length, ∀ hj : j < st.phases.length, i ≠ j →
      ∀ ri rj, winnerRow (st.phases.get ⟨i, hi⟩) = some ri →
        winnerRow (st.phases.get ⟨j, hj⟩) = some rj → ri.id ≠ rj.id) ∧
  st.phases.countP isWinner + (pendingFor st.txns sid).length ≤
    (pendingFor db0 sid).length

end QrisWorker

namespace QrisWorker

/- ===== Lemmas: oldest-pending read ===== -/

theorem minByIdGo_eq_some (l : List Txn) :
    ∀ (acc : Option Txn) (t : Txn), minByIdGo acc l = some t →
      (t ∈ l ∨ acc = some t) ∧ (∀ u ∈ l, t.id ≤ u.id) ∧
      (∀ v, acc = some v → t.id ≤ v.id) := by
  induction l with
  | nil =>
    intro acc t h
    simp only [minByIdGo, List.foldl_nil] at h
    exact ⟨Or.inr h, by simp, fun v hv => by simp [hv] at h; simp [h]⟩
  | cons u l ih =>
    intro acc t h
    simp only [minByIdGo, List.foldl_cons] at h
    cases acc with
    | none =>
      have h' := ih (some u) t h
      refine ⟨?_, ?_, ?_⟩
      · rcases h'.1 with hmem | hacc
        · exact Or.inl (List.mem_cons_of_mem _ hmem)
        · exact Or.inl (by simp at hacc; simp [hacc])
      · intro x hx
        rcases List.mem_cons.mp hx with rfl | hx
        · exact h'.2.2 x rfl
        · exact h'.2.1 x hx
      · intro v hv; cases hv
    | some w =>
      by_cases hlt : u.id < w.id
      · simp only [hlt, if_pos] at h
        have h' := ih (some u) t h
        refine ⟨?_, ?_, ?_⟩
        · rcases h'.1 with hmem | hacc
          · exact Or.inl (List.mem_cons_of_mem _ hmem)
          · exact Or.inl (by simp at hacc; simp [hacc])
        · intro x hx
          rcases List.mem_cons.mp hx with rfl | hx
          · exact h'.2.2 x rfl
          · exact h'.2.1 x hx
        · intro v hv
          have hw : w = v := by simpa using hv
          subst hw
          have := h'.2.2 u rfl
          omega
      · simp only [hlt, if_neg, if_false] at h
        have h' := ih (some w) t h
        refine ⟨?_, ?_, ?_⟩
        · rcases h'.1 with hmem | hacc
          · exact Or.inl (List.mem_cons_of_mem _ hmem)
          · exact Or.inr hacc
        · intro x hx
          rcases List.mem_cons.mp hx with rfl | hx
          · have := h'.2.2 w rfl
            omega
          · exact h'.2.1 x hx
        · intro v hv
          have hw : w = v := by simpa using hv
          subst hw
          exact h'.2.2 w rfl

theorem minByIdGo_eq_none (l : List Txn) :
    ∀ acc : Option Txn, minByIdGo acc l = none → acc = none ∧ l = [] := by
  induction l with
  | nil => intro acc h; exact ⟨h, rfl⟩
  | cons u l ih =>
    intro acc h
    simp only [minByIdGo, List.foldl_cons] at h
    cases acc with
    | none =>
      have := (ih (some u) h).1
      cases this
    | some w =>
      by_cases hlt : u.id < w.id
      · simp only [hlt, if_pos] at h
        have := (ih (some u) h).1
        cases this
      · simp only [hlt, if_neg, if_false] at h
        have := (ih (some w) h).1
        cases this

/-- What membership in the pending read means. -/
theorem mem_pendingFor {txns : List Txn} {sid : String} {t : Txn} :
    t ∈ pendingFor txns sid ↔ t ∈ txns ∧ t.played = 0 ∧ t.store_id = sid := by
  simp [pendingFor, List.mem_filter, and_assoc]

/-- The `ORDER BY id ASC LIMIT 1` read returns a pending row of this store
of minimal `id`. -/
theorem oldestPending_spec {txns : List Txn} {sid : String} {row : Txn}
    (h : oldestPending txns sid = some row) :
    row ∈ pendingFor txns sid ∧ ∀ u ∈ pendingFor txns sid, row.id ≤ u.id := by
  have h' := minByIdGo_eq_some (pendingFor txns sid) none row h
  rcases h'.1 with hmem | hacc
  · exact ⟨hmem, h'.2.1⟩
  · cases hacc

/-- The read returns `none` exactly on an empty per-store pending queue. -/
theorem oldestPending_eq_none {txns : List Txn} {sid : String} :
    oldestPending txns sid = none ↔ pendingFor txns sid = [] := by
  constructor
  · intro h; exact (minByIdGo_eq_none _ none h).2
  · intro h; simp [oldestPending, h, minByIdGo]

/- ===== Lemmas: the conditional played=0→1 update ===== -/

/-- The conditional update reports a change exactly when a pending row with
the given `id` exists. -/
theorem casClaim_changed_iff {txns : List Txn} {i : Nat} :
    (casClaim txns i).1 = true ↔ ∃ t ∈ txns, t.id = i ∧ t.played = 0 := by
  simp [casClaim, List.any_eq_true]

/-- Every row after the conditional update descends from a row of the
table before it, with `id`, `transaction_id`, `store_id` and `amount`
unchanged, and was pending before if it is pending after. -/
theorem casClaim_core {txns : List Txn} {i : Nat} {t2 : Txn}
    (h : t2 ∈ (casClaim txns i).2) :
    ∃ t ∈ txns, t.id = t2.id ∧ t.transaction_id = t2.transaction_id ∧
      t.store_id = t2.store_id ∧ t.amount = t2.amount ∧
      (t2.played = 0 → t = t2) := by
  simp only [casClaim, List.mem_map] at h
  obtain ⟨t, ht, heq⟩ := h
  by_cases hc : (t.id == i && t.played == 0) = true
  · refine ⟨t, ht, ?_⟩
    simp [hc] at heq
    subst heq
    simp_all
  · refine ⟨t, ht, ?_⟩
    simp [hc] at heq
    subst heq
    simp

/-- After a conditional update on `id = i`, no row with that `id` is
pending. -/
theorem casClaim_id_not_pending {txns : List Txn} {i : Nat} {t2 : Txn}
    (h : t2 ∈ (casClaim txns i).2) (hid : t2.id = i) : t2.played ≠ 0 := by
  simp only [casClaim, List.mem_map] at h
  obtain ⟨t, _, heq⟩ := h
  by_cases hc : (t.id == i && t.played == 0) = true
  · simp [hc] at heq; subst heq; simp
  · simp [hc] at heq
    subst heq
    simp only [Bool.and_eq_true, beq_iff_eq, not_and] at hc
    intro hp
    exact hc hid hp

/-- The per-store pending queue after a conditional update is the queue
before it with the targeted row removed. -/
theorem pendingFor_casClaim (txns : List Txn) (i : Nat) (sid : String) :
    pendingFor (casClaim txns i).2 sid =
      (pendingFor txns sid).filter (fun t => !(t.id == i)) := by
  simp only [pendingFor, casClaim, List.filter_filter]
  induction txns with
  | nil => rfl
  | cons t rest ih =>
    simp only [List.map_cons, List.filter_cons]
    by_cases hi : t.id = i
    · by_cases hp : t.played = 0
      · simpa [hi, hp] using ih
      · simpa [hi, hp] using ih
    · by_cases hp : t.played = 0
      · by_cases hs : t.store_id = sid
        · simpa [hi, hp, hs] using ih
        · simpa [hi, hp, hs] using ih
      · simpa [hi, hp] using ih

/-- Dropping an element that fails the filter predicate strictly shrinks
the filtered length. -/
theorem length_filter_lt {α : Type} (p : α → Bool) (l : List α) (x : α)
    (hx : x ∈ l) (hpx : p x = false) : (l.filter p).length < l.length := by
  rw [List.length_filter_lt_length_iff_exists]
  exact ⟨x, hx, by simp [hpx]⟩


/- ===== Lemmas: the claim loop ===== -/

/-- On an uncontended store the loop claims the row returned by the
oldest-pending read on its first attempt. -/
theorem claimLoop_eq_of_oldest {sid : String} {txns : List Txn} {row : Txn}
    (n : Nat) (h : oldestPending txns sid = some row) :
    claimLoop sid (n + 1) txns = (.available row, (casClaim txns row.id).2, [true]) := by
  have hmem := (oldestPending_spec h).1
  rw [mem_pendingFor] at hmem
  have hch : (casClaim txns row.id).1 = true :=
    casClaim_changed_iff.mpr ⟨row, hmem.1, rfl, hmem.2.1⟩
  simp [claimLoop, claimLoopI, h, hch]

/-- An empty per-store queue makes the loop return at once. -/
theorem claimLoop_eq_of_none {sid : String} {txns : List Txn} (n : Nat)
    (h : oldestPending txns sid = none) :
    claimLoop sid (n + 1) txns = (.notAvailable, txns, []) := by
  simp [claimLoop, claimLoopI, h]

/-- The loop performs at most as many conditional updates as it has fuel. -/
theorem claimLoopI_attempts_le (interf : Nat → List Txn → List Txn)
    (sid : String) (n : Nat) (txns : List Txn) :
    (claimLoopI interf sid n txns).2.2.length ≤ n := by
  induction n generalizing txns with
  | zero => simp [claimLoopI]
  | succ n ih =>
    cases hop : oldestPending txns sid with
    | none => simp [claimLoopI, hop]
    | some row =>
      by_cases hch : (casClaim (interf (n + 1) txns) row.id).1 = true
      · simp [claimLoopI, hop, hch]
      · simp only [claimLoopI, hop, hch, if_neg, if_false, Bool.false_eq_true,
          List.length_cons]
        have := ih (casClaim (interf (n + 1) txns) row.id).2
        omega

/-- If every conditional update the loop attempted affected zero rows, the
loop result is the empty-queue result. -/
theorem claimLoopI_all_failed (interf : Nat → List Txn → List Txn)
    (sid : String) (n : Nat) (txns : List Txn)
    (h : ∀ b ∈ (claimLoopI interf sid n txns).2.2, b = false) :
    (claimLoopI interf sid n txns).1 = .notAvailable := by
  induction n generalizing txns with
  | zero => simp [claimLoopI]
  | succ n ih =>
    cases hop : oldestPending txns sid with
    | none => simp [claimLoopI, hop]
    | some row =>
      by_cases hch : (casClaim (interf (n + 1) txns) row.id).1 = true
      · exfalso
        have := h true
        simp [claimLoopI, hop, hch] at this
      · simp only [claimLoopI, hop, hch, Bool.false_eq_true, if_false]
        apply ih
        intro b hb
        apply h
        simp only [claimLoopI, hop, hch, Bool.false_eq_true, if_false,
          List.mem_cons]
        exact Or.inr hb

/-- Both claim-loop outcomes map to a status-200 JSON response. -/
theorem respOfClaim_status (sid : String) (r : ClaimResult) :
    (respOfClaim sid r).status = 200 := by
  cases r <;> rfl

/- ===== Theorems: FIFO claim order (C2) ===== -/

/-- Claim C2: every claim call that returns `available:true` returns the
lowest-`id` `played=0` row of the store at claim time; a store with no
pending transactions yields the normal `{available:false}` result; and
sequentially polling a store whose queue holds A, B, C returns A, then B,
then C, then `{available:false}`. -/
theorem fifo_within_store (txns : List Txn) (sid : String) :
    (pendingFor txns sid = [] → claimLoop sid 3 txns = (.notAvailable, txns, [])) ∧
    (∀ row, oldestPending txns sid = some row →
      (claimLoop sid 3 txns).1 = .available row ∧
      row.played = 0 ∧ row.store_id = sid ∧ row ∈ txns ∧
      ∀ u ∈ pendingFor txns sid, row.id ≤ u.id) ∧
    ((claimLoop "S1" 3
        [⟨1, "txA", "S1", 10000, 0⟩, ⟨2, "txB", "S1", 20000, 0⟩,
         ⟨3, "txC", "S1", 30000, 0⟩]).1 = .available ⟨1, "txA", "S1", 10000, 0⟩ ∧
     (claimLoop "S1" 3
        (claimLoop "S1" 3
          [⟨1, "txA", "S1", 10000, 0⟩, ⟨2, "txB", "S1", 20000, 0⟩,
           ⟨3, "txC", "S1", 30000, 0⟩]).2.1).1 = .available ⟨2, "txB", "S1", 20000, 0⟩ ∧
     (claimLoop "S1" 3
        (claimLoop "S1" 3
          (claimLoop "S1" 3
            [⟨1, "txA", "S1", 10000, 0⟩, ⟨2, "txB", "S1", 20000, 0⟩,
             ⟨3, "txC", "S1", 30000, 0⟩]).2.1).2.1).1 = .available ⟨3, "txC", "S1", 30000, 0⟩ ∧
     (claimLoop "S1" 3
        (claimLoop "S1" 3
          (claimLoop "S1" 3
            (claimLoop "S1" 3
              [⟨1, "txA", "S1", 10000, 0⟩, ⟨2, "txB", "S1", 20000, 0⟩,
               ⟨3, "txC", "S1", 30000, 0⟩]).2.1).2.1).2.1).1 = .notAvailable) := by
  refine ⟨?_, ?_, by decide⟩
  · intro h
    exact claimLoop_eq_of_none 2 (oldestPending_eq_none.mpr h)
  · intro row h
    have hmem := (oldestPending_spec h).1
    have hmin := (oldestPending_spec h).2
    rw [mem_pendingFor] at hmem
    refine ⟨?_, hmem.2.1, hmem.2.2, hmem.1, hmin⟩
    rw [claimLoop_eq_of_oldest 2 h]

/-- Witness for `fifo_within_store` on a one-element queue. -/
theorem fifo_within_store_witness :
    (claimLoop "S1" 3 [⟨5, "tx5", "S1", 100, 0⟩]).1 =
      .available ⟨5, "tx5", "S1", 100, 0⟩ :=
  ((fifo_within_store [⟨5, "tx5", "S1", 100, 0⟩] "S1").2.1
    ⟨5, "tx5", "S1", 100, 0⟩ (by decide)).1

/- ===== Theorems: bounded retry budget (C9) ===== -/

/-- Claim C9: under arbitrary concurrent interference the claim loop makes
at most 3 conditional-update attempts; if every attempt affected zero rows
the call returns `{available:false}`; and in all cases the claim phase
produces a status-200 JSON response, never an error. -/
theorem bounded_retry_budget (interf : Nat → List Txn → List Txn)
    (sid : String) (txns : List Txn) :
    (claimLoopI interf sid 3 txns).2.2.length ≤ 3 ∧
    ((∀ b ∈ (claimLoopI interf sid 3 txns).2.2, b = false) →
      (claimLoopI interf sid 3 txns).1 = .notAvailable) ∧
    (respOfClaim sid (claimLoopI interf sid 3 txns).1).status = 200 :=
  ⟨claimLoopI_attempts_le interf sid 3 txns,
   claimLoopI_all_failed interf sid 3 txns,
   respOfClaim_status sid (claimLoopI interf sid 3 txns).1⟩

/-- Witness for `bounded_retry_budget`: a rival that claims row 1 between
every read and update makes the call lose its race and report
`{available:false}`. -/
theorem bounded_retry_budget_witness :
    (claimLoopI (fun _ t => (casClaim t 1).2) "S1" 3
        [⟨1, "tx1", "S1", 100, 0⟩]).1 = .notAvailable :=
  (bounded_retry_budget (fun _ t => (casClaim t 1).2) "S1"
    [⟨1, "tx1", "S1", 100, 0⟩]).2.1 (by decide)

/- ===== Lemmas: interleaved executions (towards at-most-once) ===== -/

theorem countP_set {α : Type} (p : α → Bool) (l : List α) (k : Nat) (a : α)
    (hk : k < l.length) :
    (l.set k a).countP p + (if p (l.get ⟨k, hk⟩) then 1 else 0) =
      l.countP p + (if p a then 1 else 0) := by
  induction l generalizing k with
  | nil => cases hk
  | cons x l ih =>
    cases k with
    | zero =>
      simp only [List.set_cons_zero, List.countP_cons, List.get_eq_getElem,
        List.getElem_cons_zero]
      omega
    | succ k =>
      have hk' : k < l.length := by simpa using hk
      simp only [List.set_cons_succ, List.countP_cons, List.get_eq_getElem,
        List.getElem_cons_succ]
      have := ih k hk'
      simp only [List.get_eq_getElem] at this
      omega

/-- Conjunct (A) of the invariant survives a conditional update. -/
theorem invA_casClaim {db0 txns : List Txn} (i : Nat)
    (hA : ∀ t ∈ txns, ∃ t0 ∈ db0, t0.id = t.id ∧
      t0.transaction_id = t.transaction_id ∧ t0.store_id = t.store_id ∧
      (t.played = 0 → t0.played = 0)) :
    ∀ t2 ∈ (casClaim txns i).2, ∃ t0 ∈ db0, t0.id = t2.id ∧
      t0.transaction_id = t2.transaction_id ∧ t0.store_id = t2.store_id ∧
      (t2.played = 0 → t0.played = 0) := by
  intro t2 ht2
  obtain ⟨t, ht, hid, htx, hst, _, hpend⟩ := casClaim_core ht2
  obtain ⟨t0, ht0, h1, h2, h3, h4⟩ := hA t ht
  refine ⟨t0, ht0, h1.trans hid, h2.trans htx, h3.trans hst, ?_⟩
  intro hp
  have he := hpend hp
  subst he
  exact h4 hp

/-- A claimed row can never become pending again. -/
theorem notPending_casClaim {txns : List Txn} {i rid : Nat}
    (h : ∀ t ∈ txns, t.id = rid → t.played ≠ 0) :
    ∀ t2 ∈ (casClaim txns i).2, t2.id = rid → t2.played ≠ 0 := by
  intro t2 ht2 hid hp
  obtain ⟨t, ht, hid', _, _, _, hpend⟩ := casClaim_core ht2
  have he := hpend hp
  subst he
  exact h t ht hid hp

/-- Replacing a phase by a non-winner preserves conjunct (D). -/
theorem invD_set_nonwinner {phases : List PollerPhase} {k : Nat}
    (a : PollerPhase)
    (hD : ∀ i j, ∀ hi : i < phases.length, ∀ hj : j < phases.length, i ≠ j →
      ∀ ri rj, winnerRow (phases.get ⟨i, hi⟩) = some ri →
        winnerRow (phases.get ⟨j, hj⟩) = some rj → ri.id ≠ rj.id)
    (ha : winnerRow a = none) :
    ∀ i j, ∀ hi : i < (phases.set k a).length,
      ∀ hj : j < (phases.set k a).length, i ≠ j →
      ∀ ri rj, winnerRow ((phases.set k a).get ⟨i, hi⟩) = some ri →
        winnerRow ((phases.set k a).get ⟨j, hj⟩) = some rj → ri.id ≠ rj.id := by
  intro i j hi hj hne ri rj hri hrj
  have hi' : i < phases.length := by simpa using hi
  have hj' : j < phases.length := by simpa using hj
  rw [List.get_eq_getElem] at hri hrj
  simp only [List.getElem_set] at hri hrj
  by_cases hik : k = i
  · subst hik; simp [ha] at hri
  · by_cases hjk : k = j
    · subst hjk; simp [ha] at hrj
    · simp only [hik, hjk, if_false] at hri hrj
      exact hD i j hi' hj' hne ri rj
        (by rw [List.get_eq_getElem]; exact hri)
        (by rw [List.get_eq_getElem]; exact hrj)

/-- Replacing a phase by a winner whose row `id` differs from every other
winner's preserves conjunct (D). -/
theorem invD_set_winner {phases : List PollerPhase} {k : Nat}
    (a : PollerPhase)
    (hD : ∀ i j, ∀ hi : i < phases.length, ∀ hj : j < phases.length, i ≠ j →
      ∀ ri rj, winnerRow (phases.get ⟨i, hi⟩) = some ri →
        winnerRow (phases.get ⟨j, hj⟩) = some rj → ri.id ≠ rj.id)
    (hnew : ∀ rnew, winnerRow a = some rnew →
      ∀ j, ∀ hj : j < phases.length, j ≠ k →
        ∀ rj, winnerRow (phases.get ⟨j, hj⟩) = some rj → rnew.id ≠ rj.id) :
    ∀ i j, ∀ hi : i < (phases.set k a).length,
      ∀ hj : j < (phases.set k a).length, i ≠ j →
      ∀ ri rj, winnerRow ((phases.set k a).get ⟨i, hi⟩) = some ri →
        winnerRow ((phases.set k a).get ⟨j, hj⟩) = some rj → ri.id ≠ rj.id := by
  intro i j hi hj hne ri rj hri hrj
  have hi' : i < phases.length := by simpa using hi
  have hj' : j < phases.length := by simpa using hj
  rw [List.get_eq_getElem] at hri hrj
  simp only [List.getElem_set] at hri hrj
  by_cases hik : k = i
  · subst hik
    simp only [if_pos rfl] at hri
    by_cases hjk : k = j
    · exact absurd hjk hne
    · simp only [hjk, if_false] at hrj
      exact hnew ri hri j hj' (fun hc => hjk hc.symm) rj
        (by rw [List.get_eq_getElem]; exact hrj)
  · by_cases hjk : k = j
    · subst hjk
      simp only [if_pos rfl] at hrj
      simp only [hik, if_false] at hri
      exact (hnew rj hrj i hi' (fun hc => hik hc.symm) ri
        (by rw [List.get_eq_getElem]; exact hri)).symm

    · simp only [hik, hjk, if_false] at hri hrj
      exact hD i j hi' hj' hne ri rj
        (by rw [List.get_eq_getElem]; exact hri)
        (by rw [List.get_eq_getElem]; exact hrj)

theorem winnerRow_start (n : Nat) : winnerRow (.start n) = none := rfl

theorem winnerRow_casPh (n : Nat) (row : Txn) :
    winnerRow (.casPh n row) = none := rfl

theorem winnerRow_done_avail (row : Txn) :
    winnerRow (.donePh (.available row)) = some row := rfl

theorem winnerRow_done_na : winnerRow (.donePh .notAvailable) = none := rfl

/-- A phase holding a winner's row is a finished `available:true` call. -/
theorem winnerRow_eq_some {ph : PollerPhase} {r : Txn}
    (h : winnerRow ph = some r) : ph = .donePh (.available r) := by
  cases ph with
  | start n => cases h
  | casPh n row => cases h
  | donePh res =>
    cases res with
    | available row =>
      rw [winnerRow_done_avail] at h
      cases h
      rfl
    | notAvailable => cases h

/-- The invariant is preserved by every atomic step of every poller. -/
theorem claimInv_schedStep (db0 : List Txn) (sid : String)
    (hids : (db0.map (fun t => t.id)).Nodup) (st : SysState) (k : Nat)
    (h : ClaimInv db0 sid st) : ClaimInv db0 sid (schedStep sid st k) := by
  obtain ⟨hA, hE, hW, hD, hB⟩ := h
  unfold schedStep
  by_cases hk : k < st.phases.length
  case neg => rw [dif_neg hk]; exact ⟨hA, hE, hW, hD, hB⟩
  case pos =>
    rw [dif_pos hk]
    have hmemk : st.phases.get ⟨k, hk⟩ ∈ st.phases := List.get_mem st.phases k hk
    cases hph : st.phases.get ⟨k, hk⟩ with
    | start fuel =>
      have hcount0 : (st.phases.set k (.donePh .notAvailable)).countP isWinner +
          (pendingFor st.txns sid).length ≤ (pendingFor db0 sid).length := by
        have hc := countP_set isWinner st.phases k (.donePh .notAvailable) hk
        rw [hph] at hc
        simp only [isWinner, winnerRow_start, winnerRow_done_na,
          Option.isSome_none, Bool.false_eq_true, if_false] at hc
        omega
      have hend : ClaimInv db0 sid
          { txns := st.txns,
            phases := st.phases.set k (.donePh .notAvailable) } := by
        refine ⟨hA, ?_, ?_, invD_set_nonwinner _ hD rfl, hcount0⟩
        · intro ph hmem n row heq
          rcases List.mem_or_eq_of_mem_set hmem with hold | hnew
          · exact hE ph hold n row heq
          · rw [hnew] at heq
            cases heq
        · intro ph hmem row heq
          rcases List.mem_or_eq_of_mem_set hmem with hold | hnew
          · exact hW ph hold row heq
          · rw [hnew] at heq
            cases heq
      cases fuel with
      | zero => simpa [stepPoller] using hend
      | succ n =>
        cases hop : oldestPending st.txns sid with
        | none => simpa [stepPoller, hop] using hend
        | some row =>
          have hm := (oldestPending_spec hop).1
          rw [mem_pendingFor] at hm
          obtain ⟨t0, ht0, h1, h2, h3, h4⟩ := hA row hm.1
          have hgood : GoodRow db0 sid row :=
            ⟨t0, ht0, h1, h2, by rw [h3, hm.2.2], h4 hm.2.1⟩
          simp only [stepPoller, hop]
          refine ⟨hA, ?_, ?_, invD_set_nonwinner _ hD rfl, ?_⟩
          · intro ph hmem n' row' heq
            rcases List.mem_or_eq_of_mem_set hmem with hold | hnew
            · exact hE ph hold n' row' heq
            · rw [hnew] at heq
              cases heq
              exact hgood
          · intro ph hmem row' heq
            rcases List.mem_or_eq_of_mem_set hmem with hold | hnew
            · exact hW ph hold row' heq
            · rw [hnew] at heq
              cases heq
          · show (st.phases.set k (.casPh n row)).countP isWinner +
              (pendingFor st.txns sid).length ≤ (pendingFor db0 sid).length
            have hc := countP_set isWinner st.phases k (.casPh n row) hk
            rw [hph] at hc
            simp only [isWinner, winnerRow_start, winnerRow_casPh,
              Option.isSome_none, Bool.false_eq_true, if_false] at hc
            omega
    | casPh n row =>
      have hgoodrow : GoodRow db0 sid row := hE _ hmemk n row hph
      by_cases hch : (casClaim st.txns row.id).1 = true
      · -- the conditional update claimed the row: this poller wins it
        obtain ⟨u, hu, huid, hup⟩ := casClaim_changed_iff.mp hch
        obtain ⟨r0, hr0, hr0id, hr0tx, hr0st, hr0p⟩ := hgoodrow
        obtain ⟨u0, hu0, hu0id, hu0tx, hu0st, hu0p⟩ := hA u hu
        have hu0r0 : u0 = r0 :=
          List.inj_on_of_nodup_map hids hu0 hr0 (by rw [hu0id, hr0id, huid])
        have hust : u.store_id = sid := by rw [← hu0st, hu0r0, hr0st]
        simp only [stepPoller, hch, if_true]
        refine ⟨invA_casClaim row.id hA, ?_, ?_, ?_, ?_⟩
        · intro ph hmem n' row' heq
          rcases List.mem_or_eq_of_mem_set hmem with hold | hnew
          · exact hE ph hold n' row' heq
          · rw [hnew] at heq
            cases heq
        · intro ph hmem row' heq
          rcases List.mem_or_eq_of_mem_set hmem with hold | hnew
          · obtain ⟨hg, hnp⟩ := hW ph hold row' heq
            exact ⟨hg, notPending_casClaim hnp⟩
          · rw [hnew] at heq
            cases heq
            refine ⟨⟨r0, hr0, hr0id, hr0tx, hr0st, hr0p⟩, ?_⟩
            intro t ht hid
            exact casClaim_id_not_pending ht hid
        · refine invD_set_winner _ hD ?_
          intro rnew hrnew j hj hjk rj hrj
          have hrow : rnew = row := by
            rw [winnerRow_done_avail] at hrnew
            cases hrnew
            rfl
          subst hrow
          obtain ⟨_, hnp⟩ :=
            hW (st.phases.get ⟨j, hj⟩) (List.get_mem st.phases j hj) rj
              (winnerRow_eq_some hrj)
          intro hcontra
          exact hnp u hu (by rw [huid, hcontra]) hup
        · show (st.phases.set k (.donePh (.available row))).countP isWinner +
            (pendingFor (casClaim st.txns row.id).2 sid).length ≤
              (pendingFor db0 sid).length
          have hc := countP_set isWinner st.phases k
            (.donePh (.available row)) hk
          rw [hph] at hc
          simp only [isWinner, winnerRow_casPh, winnerRow_done_avail,
            Option.isSome_none, Option.isSome_some, Bool.false_eq_true,
            if_false, if_true] at hc
          have hpend := pendingFor_casClaim st.txns row.id sid
          have hlt : ((pendingFor st.txns sid).filter
              (fun t => !(t.id == row.id))).length <
              (pendingFor st.txns sid).length :=
            length_filter_lt _ _ u (mem_pendingFor.mpr ⟨hu, hup, hust⟩)
              (by simp [huid])
          rw [hpend]
          omega
      · -- the conditional update affected zero rows: retry
        simp only [stepPoller, hch, Bool.false_eq_true, if_false]
        refine ⟨invA_casClaim row.id hA, ?_, ?_,
          invD_set_nonwinner _ hD rfl, ?_⟩
        · intro ph hmem n' row' heq
          rcases List.mem_or_eq_of_mem_set hmem with hold | hnew
          · exact hE ph hold n' row' heq
          · rw [hnew] at heq
            cases heq
        · intro ph hmem row' heq
          rcases List.mem_or_eq_of_mem_set hmem with hold | hnew
          · obtain ⟨hg, hnp⟩ := hW ph hold row' heq
            exact ⟨hg, notPending_casClaim hnp⟩
          · rw [hnew] at heq
            cases heq
        · show (st.phases.set k (.start n)).countP isWinner +
            (pendingFor (casClaim st.txns row.id).2 sid).length ≤
              (pendingFor db0 sid).length
          have hc := countP_set isWinner st.phases k (.start n) hk
          rw [hph] at hc
          simp only [isWinner, winnerRow_casPh, winnerRow_start,
            Option.isSome_none, Bool.false_eq_true, if_false] at hc
          have hpend := pendingFor_casClaim st.txns row.id sid
          have hle := List.length_filter_le (fun t => !(t.id == row.id))
            (pendingFor st.txns sid)
          rw [hpend]
          omega
    | donePh r =>
      simp only [stepPoller]
      refine ⟨hA, ?_, ?_, ?_, ?_⟩
      · intro ph hmem n' row' heq
        rcases List.mem_or_eq_of_mem_set hmem with hold | hnew
        · exact hE ph hold n' row' heq
        · rw [hnew] at heq
          cases heq
      · intro ph hmem row' heq
        rcases List.mem_or_eq_of_mem_set hmem with hold | hnew
        · exact hW ph hold row' heq
        · rw [hnew] at heq
          exact hW _ (hph ▸ hmemk) row' heq
      · refine invD_set_winner _ hD ?_
        intro rnew hrnew j hj hjk rj hrj
        exact hD k j hk hj (fun hc => hjk hc.symm) rnew rj
          (by rw [hph]; exact hrnew) hrj
      · show (st.phases.set k (.donePh r)).countP isWinner +
          (pendingFor st.txns sid).length ≤ (pendingFor db0 sid).length
        have hc := countP_set isWinner st.phases k (.donePh r) hk
        rw [hph] at hc
        omega

/-- The invariant holds before any poller has moved. -/
theorem claimInv_init (db0 : List Txn) (sid : String) (m fuel : Nat) :
    ClaimInv db0 sid ⟨db0, List.replicate m (.start fuel)⟩ := by
  refine ⟨?_, ?_, ?_, ?_, ?_⟩
  · intro t ht
    exact ⟨t, ht, rfl, rfl, rfl, fun h => h⟩
  · intro ph hmem n row heq
    rw [List.eq_of_mem_replicate hmem] at heq
    cases heq
  · intro ph hmem row heq
    rw [List.eq_of_mem_replicate hmem] at heq
    cases heq
  · intro i j hi hj hne ri rj hri hrj
    rw [List.get_eq_getElem, List.getElem_replicate, winnerRow_start] at hri
    cases hri
  · have hz : (List.replicate m (PollerPhase.start fuel)).countP isWinner = 0 := by
      rw [List.countP_eq_zero]
      intro a ha
      rw [List.eq_of_mem_replicate ha]
      simp [isWinner, winnerRow_start]
    simp only [hz, Nat.zero_add]
    exact Nat.le_refl _

/-- The invariant is preserved by every interleaving. -/
theorem claimInv_runSched (db0 : List Txn) (sid : String)
    (hids : (db0.map (fun t => t.id)).Nodup) (st : SysState)
    (sched : List Nat) (h : ClaimInv db0 sid st) :
    ClaimInv db0 sid (runSched sid st sched) := by
  induction sched generalizing st with
  | nil => exact h
  | cons k sched ih => exact ih _ (claimInv_schedStep db0 sid hids st k h)

/- ===== Theorems: at-most-once delivery (C1) ===== -/

/-- Claim C1: for any interleaving of `m` concurrent claim calls against a
store (each running the 3-attempt loop once), the number of calls that
finish with `available:true` never exceeds the store's initial pending
count, and two distinct finished calls never return the same row — neither
the same `id` nor, when the initial `transaction_id`s are distinct as
generated, the same `transaction_id`.  At most one device ever observes a
given transaction as newly available. -/
theorem at_most_once_delivery (db0 : List Txn) (sid : String) (m : Nat)
    (sched : List Nat)
    (hids : (db0.map (fun t => t.id)).Nodup)
    (htx : (db0.map (fun t => t.transaction_id)).Nodup) :
    (runSched sid ⟨db0, List.replicate m (.start 3)⟩ sched).phases.countP
        isWinner ≤ (pendingFor db0 sid).length ∧
    (∀ i j,
      ∀ hi : i <
        (runSched sid ⟨db0, List.replicate m (.start 3)⟩ sched).phases.length,
      ∀ hj : j <
        (runSched sid ⟨db0, List.replicate m (.start 3)⟩ sched).phases.length,
      i ≠ j → ∀ ri rj,
      winnerRow ((runSched sid ⟨db0, List.replicate m (.start 3)⟩
        sched).phases.get ⟨i, hi⟩) = some ri →
      winnerRow ((runSched sid ⟨db0, List.replicate m (.start 3)⟩
        sched).phases.get ⟨j, hj⟩) = some rj →
      ri.id ≠ rj.id ∧ ri.transaction_id ≠ rj.transaction_id) := by
  obtain ⟨hA, hE, hW, hD, hB⟩ :=
    claimInv_runSched db0 sid hids ⟨db0, List.replicate m (.start 3)⟩ sched
      (claimInv_init db0 sid m 3)
  constructor
  · omega
  · intro i j hi hj hne ri rj hri hrj
    have hidne := hD i j hi hj hne ri rj hri hrj
    refine ⟨hidne, ?_⟩
    obtain ⟨gi, _⟩ := hW _ (List.get_mem _ i hi) ri (winnerRow_eq_some hri)
    obtain ⟨gj, _⟩ := hW _ (List.get_mem _ j hj) rj (winnerRow_eq_some hrj)
    obtain ⟨r0i, hr0i, h1i, h2i, _, _⟩ := gi
    obtain ⟨r0j, hr0j, h1j, h2j, _, _⟩ := gj
    intro hcontra
    have heq0 : r0i = r0j :=
      List.inj_on_of_nodup_map htx hr0i hr0j (by rw [h2i, h2j, hcontra])
    apply hidne
    rw [← h1i, ← h1j, heq0]

/-- Witness for `at_most_once_delivery`: two pollers racing for a single
pending transaction produce at most one `available:true` response. -/
theorem at_most_once_delivery_witness :
    (runSched "S1" ⟨[⟨1, "tx1", "S1", 100, 0⟩],
        List.replicate 2 (.start 3)⟩ [0, 1, 0, 1, 0, 1]).phases.countP
      isWinner ≤ (pendingFor [⟨1, "tx1", "S1", 100, 0⟩] "S1").length :=
  (at_most_once_delivery [⟨1, "tx1", "S1", 100, 0⟩] "S1" 2 [0, 1, 0, 1, 0, 1]
    (by decide) (by decide)).1

/- ===== Theorems: terminal played flag (C3) ===== -/

theorem foldl_max_le_acc (l : List Txn) :
    ∀ acc : Nat, acc ≤ l.foldl (fun m t => max m t.id) acc := by
  induction l with
  | nil => intro acc; exact Nat.le_refl _
  | cons t l ih =>
    intro acc
    calc acc ≤ max acc t.id := Nat.le_max_left _ _
    _ ≤ l.foldl (fun m t => max m t.id) (max acc t.id) := ih _

theorem mem_le_foldl_max (l : List Txn) :
    ∀ acc : Nat, ∀ t ∈ l, t.id ≤ l.foldl (fun m t => max m t.id) acc := by
  induction l with
  | nil => intro acc t ht; cases ht
  | cons u l ih =>
    intro acc t ht
    rcases List.mem_cons.mp ht with rfl | ht
    · calc t.id ≤ max acc t.id := Nat.le_max_right _ _
      _ ≤ l.foldl (fun m t => max m t.id) (max acc t.id) := foldl_max_le_acc l _
    · exact ih _ t ht

/-- Claim C3: across every write operation the worker issues against the
transactions table, the only mutation of a row's `played` flag is the
conditional update from 0 to 1; no operation resets a claimed row to
pending; and once a transaction is claimed, no subsequent claim call
returns its `transaction_id` again. -/
theorem played_flag_terminal :
    (∀ (txns : List Txn) (op : TxOp), ∀ t2 ∈ applyTxOp txns op,
      t2 ∈ txns ∨ t2.played = 0 ∨
      ∃ i, op = TxOp.cas i ∧ t2.id = i ∧ t2.played = 1 ∧
        ∃ t ∈ txns, t.id = i ∧ t.played = 0 ∧ t2 = { t with played := 1 }) ∧
    (∀ (txns : List Txn) (op : TxOp),
      (txns.map (fun t => t.id)).Nodup →
      ∀ t ∈ txns, t.played ≠ 0 →
        ∀ t2 ∈ applyTxOp txns op, t2.id = t.id → t2.played ≠ 0) ∧
    (∀ (txns : List Txn) (sid : String) (fuel : Nat),
      (txns.map (fun t => t.id)).Nodup →
      (txns.map (fun t => t.transaction_id)).Nodup →
      ∀ t ∈ txns, t.played ≠ 0 →
        ∀ r, (claimLoop sid fuel txns).1 = .available r →
          r.transaction_id ≠ t.transaction_id) := by
  refine ⟨?_, ?_, ?_⟩
  · intro txns op t2 h2
    cases op with
    | create sid txid amount =>
      rcases List.mem_append.mp h2 with h | h
      · exact Or.inl h
      · right; left
        have ht2 : t2 = ⟨nextId txns, txid, sid, amount, 0⟩ := by simpa using h
        rw [ht2]
    | cas i =>
      simp only [applyTxOp, casClaim, List.mem_map] at h2
      obtain ⟨t, ht, heq⟩ := h2
      by_cases hc : (t.id == i && t.played == 0) = true
      · right; right
        simp only [Bool.and_eq_true, beq_iff_eq] at hc
        rw [if_pos (by simp [hc.1, hc.2])] at heq
        refine ⟨i, rfl, ?_, ?_, t, ht, hc.1, hc.2, heq.symm⟩
        · rw [← heq]; exact hc.1
        · rw [← heq]
      · left
        rw [if_neg hc] at heq
        exact heq ▸ ht
    | clear sid =>
      exact Or.inl (List.mem_of_mem_filter h2)
  · intro txns op hids t ht hp t2 h2 hid
    cases op with
    | create sid txid amount =>
      rcases List.mem_append.mp h2 with h | h
      · have := List.inj_on_of_nodup_map hids h ht hid
        rw [this]
        exact hp
      · exfalso
        have ht2 : t2 = ⟨nextId txns, txid, sid, amount, 0⟩ := by simpa using h
        have hle := mem_le_foldl_max txns 0 t ht
        rw [ht2] at hid
        simp only [nextId] at hid
        omega
    | cas i =>
      intro hp2
      obtain ⟨t1, ht1, h1id, _, _, _, hpend⟩ := casClaim_core h2
      have he := hpend hp2
      subst he
      have h1t : t1 = t := List.inj_on_of_nodup_map hids ht1 ht hid
      rw [h1t] at hp2
      exact hp hp2
    | clear sid =>
      have h2m := List.mem_of_mem_filter h2
      have := List.inj_on_of_nodup_map hids h2m ht hid
      rw [this]
      exact hp
  · intro txns sid fuel hids htx t ht hp r hr
    cases fuel with
    | zero => simp [claimLoop, claimLoopI] at hr
    | succ n =>
      cases hop : oldestPending txns sid with
      | none =>
        rw [claimLoop_eq_of_none n hop] at hr
        cases hr
      | some row =>
        rw [claimLoop_eq_of_oldest n hop] at hr
        have hrr : row = r := by cases hr; rfl
        subst hrr
        obtain ⟨hmem, _⟩ := oldestPending_spec hop
        rw [mem_pendingFor] at hmem
        intro hcontra
        have hrt : row = t := List.inj_on_of_nodup_map htx hmem.1 ht hcontra
        exact hp (hrt ▸ hmem.2.1)

/-- Witness for `played_flag_terminal`: a claimed row survives a later
conditional update with its flag still set. -/
theorem played_flag_terminal_witness :
    (⟨1, "tx1", "S1", 100, 1⟩ : Txn) ∈
      applyTxOp [⟨1, "tx1", "S1", 100, 1⟩] (TxOp.cas 1) ∧
    (⟨1, "tx1", "S1", 100, 1⟩ : Txn).played ≠ 0 :=
  ⟨by decide,
   played_flag_terminal.2.1 [⟨1, "tx1", "S1", 100, 1⟩] (TxOp.cas 1)
     (by decide) ⟨1, "tx1", "S1", 100, 1⟩ (by decide) (by decide)
     ⟨1, "tx1", "S1", 100, 1⟩ (by decide) (by decide)⟩

/-- Claim C5 as stated predicts that, like the join predicate, the upsert
key prefers the device-token column over the device-id column; on a schema
holding both columns the source resolves the key to `device_id`. -/
theorem pickHeartbeatKey_not_device_token_first :
    pickHeartbeatKey ["device_token", "device_id"] = some "device_id" ∧
    getHeartbeatJoinExpr ["device_token", "device_id"] =
      some "s.device_token = d.device_token" ∧
    pickHeartbeatKey ["device_token", "device_id"] ≠ some "device_token" := by
  refine ⟨rfl, rfl, ?_⟩
  decide

/-- Claim C5 (amended): the join predicate prefers `device_token`, then
`device_id`, then `token`, then `store_id`; the upsert key prefers
`device_id`, then `device_token`, then `token`, then `store_id`; and the
two resolutions are unavailable (`none`) for exactly the same column sets,
namely those containing none of the four candidate columns. -/
theorem schema_adapter_resolution (cols : List String) :
    (getHeartbeatJoinExpr cols = none ↔ pickHeartbeatKey cols = none) ∧
    (getHeartbeatJoinExpr cols = none ↔
      ¬ ("device_token" ∈ cols ∨ "device_id" ∈ cols ∨
         "token" ∈ cols ∨ "store_id" ∈ cols)) ∧
    ("device_token" ∈ cols →
      getHeartbeatJoinExpr cols = some "s.device_token = d.device_token") ∧
    ("device_token" ∉ cols → "device_id" ∈ cols →
      getHeartbeatJoinExpr cols = some "s.device_token = d.device_id") ∧
    ("device_token" ∉ cols → "device_id" ∉ cols → "token" ∈ cols →
      getHeartbeatJoinExpr cols = some "s.device_token = d.token") ∧
    ("device_token" ∉ cols → "device_id" ∉ cols → "token" ∉ cols →
      "store_id" ∈ cols →
      getHeartbeatJoinExpr cols = some "s.store_id = d.store_id") ∧
    ("device_id" ∈ cols → pickHeartbeatKey cols = some "device_id") ∧
    ("device_id" ∉ cols → "device_token" ∈ cols →
      pickHeartbeatKey cols = some "device_token") ∧
    ("device_id" ∉ cols → "device_token" ∉ cols → "token" ∈ cols →
      pickHeartbeatKey cols = some "token") ∧
    ("device_id" ∉ cols → "device_token" ∉ cols → "token" ∉ cols →
      "store_id" ∈ cols → pickHeartbeatKey cols = some "store_id") := by
  by_cases hemp : cols = []
  · subst hemp; simp [getHeartbeatJoinExpr, pickHeartbeatKey]
  · by_cases h1 : "device_token" ∈ cols <;>
      by_cases h2 : "device_id" ∈ cols <;>
        by_cases h3 : "token" ∈ cols <;>
          by_cases h4 : "store_id" ∈ cols <;>
            simp [getHeartbeatJoinExpr, pickHeartbeatKey, List.isEmpty_iff,
              List.elem_iff, hemp, h1, h2, h3, h4]

/-- Witness for `schema_adapter_resolution` at a concrete column set. -/
theorem schema_adapter_resolution_witness :
    getHeartbeatJoinExpr ["token", "last_seen"] = some "s.device_token = d.token" ∧
    pickHeartbeatKey ["token", "last_seen"] = some "token" := by
  have h := schema_adapter_resolution ["token", "last_seen"]
  exact ⟨h.2.2.2.2.1 (by decide) (by decide) (by decide),
         h.2.2.2.2.2.2.2.2.1 (by decide) (by decide) (by decide)⟩

/- ===== Theorems: transaction creation (C4) ===== -/

/-- Claim C4 as stated asserts the stored amount is a positive integer; a
valid request with `amount = 0.5` passes the finite-positive validation,
succeeds, and stores `Math.floor(0.5) = 0`, which is not positive. -/
theorem qris_fractional_amount_stores_zero :
    amountOk (.num (mkRat 1 2)) = true ∧
    (qrisHandler ⟨[⟨"S1", "Toko", "tok123", 1⟩], [], []⟩ "S1"
        (.num (mkRat 1 2)) "tx_1").1 = .jsonCreated "tx_1" ∧
    ((qrisHandler ⟨[⟨"S1", "Toko", "tok123", 1⟩], [], []⟩ "S1"
        (.num (mkRat 1 2)) "tx_1").2.txns.map (fun t => t.amount)) = [0] := by
  refine ⟨by decide, by decide, by decide⟩

/-- Claim C4 (amended): after the API gate, `POST /qris` returns
`InvalidInput` (400) when the amount is not a finite positive number (this
check runs before the store lookup), returns `StoreUnavailable` (403) when
the amount is valid but the store is missing or disabled, and otherwise
appends exactly one transaction with `played=0` and stored amount
`Math.floor(amount)` — which is positive whenever `amount ≥ 1` but is `0`
for `0 < amount < 1` — returning the fresh `transaction_id` and touching
nothing else. -/
theorem qris_create (db : DBState) (sidRaw : String) (amount : JSNum)
    (fresh : String) (hsid : (jsTrim sidRaw) ≠ "") :
    (amountOk amount = false →
      qrisHandler db sidRaw amount fresh =
        (.textRes "amount must be positive number" 400, db)) ∧
    (amountOk amount = true →
      (findStore db.stores (jsTrim sidRaw) = none ∨
        ∃ s, findStore db.stores (jsTrim sidRaw) = some s ∧ s.enabled ≠ 1) →
      qrisHandler db sidRaw amount fresh =
        (.textRes "Store disabled or not registered" 403, db)) ∧
    (∀ s, amountOk amount = true → findStore db.stores (jsTrim sidRaw) = some s →
      s.enabled = 1 →
      qrisHandler db sidRaw amount fresh =
        (.jsonCreated fresh,
         { db with txns := db.txns ++
            [⟨nextId db.txns, fresh, (jsTrim sidRaw), jsFloor amount, 0⟩] })) ∧
    (∀ q, amount = .num q → 1 ≤ q → 0 < jsFloor amount) := by
  have hs' : ((jsTrim sidRaw) == "") = false := by
    simpa using hsid
  refine ⟨?_, ?_, ?_, ?_⟩
  · intro hbad
    simp [qrisHandler, hs', hbad]
  · intro hok hbadstore
    rcases hbadstore with hnone | ⟨s, hsome, hne⟩
    · simp [qrisHandler, hs', hok, hnone]
    · have hb : (s.enabled != 1) = true := by simpa using hne
      simp [qrisHandler, hs', hok, hsome, hb]
  · intro s hok hsome hen
    have hb : (s.enabled != 1) = false := by simp [hen]
    simp [qrisHandler, hs', hok, hsome, hb]
  · intro q hq h1
    subst hq
    simp only [jsFloor]
    have hfl : (1 : Int) ≤ ⌊q⌋ := by
      rw [Int.le_floor]
      exact_mod_cast h1
    omega

/-- Witness for `qris_create`: the concrete scenario of the spec, creating
a 15000-unit transaction against an enabled store. -/
theorem qris_create_witness :
    qrisHandler ⟨[⟨"S1", "Toko", "tok1", 1⟩], [], []⟩ "S1"
        (.num 15000) "tx_9" =
      (.jsonCreated "tx_9",
       ⟨[⟨"S1", "Toko", "tok1", 1⟩], [⟨1, "tx_9", "S1", 15000, 0⟩], []⟩) := by
  have h := (qris_create ⟨[⟨"S1", "Toko", "tok1", 1⟩], [], []⟩ "S1"
      (.num 15000) "tx_9" (by decide)).2.2.1 ⟨"S1", "Toko", "tok1", 1⟩
      (by decide) (by decide) rfl
  rw [h]
  decide

/- ===== Theorems: poll gating order (C8) ===== -/

/-- Claim C8: with a nonempty `store_id` and a presented (nonempty after
trimming) device token, `/next-transaction` fails `StoreUnavailable` (403)
whenever the store is missing or disabled — whatever the credential — and,
when the store exists and is enabled, fails `Unauthorized` (401) whenever
the trimmed presented token differs from the store's trimmed registered
token; in both failure cases the storage state is returned untouched: no
heartbeat is recorded and no claim attempt is made. -/
theorem poll_gating (interf : Nat → List Txn → List Txn)
    (cols : List String) (hbFail : Bool) (ip fw : String) (now : Int)
    (db : DBState) (sidRaw tokenHdr : String)
    (hsid : (jsTrim sidRaw) ≠ "") (htok : (jsTrim tokenHdr) ≠ "") :
    ((findStore db.stores (jsTrim sidRaw) = none ∨
      ∃ s, findStore db.stores (jsTrim sidRaw) = some s ∧ s.enabled ≠ 1) →
      nextTxHandler interf cols hbFail ip fw now db sidRaw tokenHdr =
        (.textRes "Invalid or disabled store" 403, db)) ∧
    (∀ s, findStore db.stores (jsTrim sidRaw) = some s → s.enabled = 1 →
      (jsTrim s.device_token) ≠ (jsTrim tokenHdr) →
      nextTxHandler interf cols hbFail ip fw now db sidRaw tokenHdr =
        (.textRes "Unauthorized" 401, db)) := by
  have hs' : ((jsTrim sidRaw) == "") = false := by simpa using hsid
  have ht' : ((jsTrim tokenHdr) == "") = false := by simpa using htok
  constructor
  · intro hbad
    rcases hbad with hnone | ⟨s, hsome, hne⟩
    · simp [nextTxHandler, hs', ht', hnone]
    · have hb : (s.enabled != 1) = true := by simpa using hne
      simp [nextTxHandler, hs', ht', hsome, hb]
  · intro s hsome hen hneq
    have hb : (s.enabled != 1) = false := by simp [hen]
    have hb2 : ((jsTrim s.device_token) != (jsTrim tokenHdr)) = true := by
      simpa using hneq
    simp [nextTxHandler, hs', ht', hsome, hb, hb2]

/-- Witness for `poll_gating`: polling a disabled store with a valid
credential fails 403 and leaves storage untouched. -/
theorem poll_gating_witness :
    nextTxHandler (fun _ t => t) ["device_token"] false "1.2.3.4" "fw1" 0
        ⟨[⟨"S1", "Toko", "tok1", 0⟩], [⟨1, "tx1", "S1", 100, 0⟩], []⟩
        "S1" "tok1" =
      (.textRes "Invalid or disabled store" 403,
       ⟨[⟨"S1", "Toko", "tok1", 0⟩], [⟨1, "tx1", "S1", 100, 0⟩], []⟩) :=
  (poll_gating (fun _ t => t) ["device_token"] false "1.2.3.4" "fw1" 0
      ⟨[⟨"S1", "Toko", "tok1", 0⟩], [⟨1, "tx1", "S1", 100, 0⟩], []⟩
      "S1" "tok1" (by decide) (by decide)).1
    (Or.inr ⟨⟨"S1", "Toko", "tok1", 0⟩, by decide, by decide⟩)

/- ===== Theorems: heartbeat failure containment (C7) ===== -/

/-- Claim C7: once the credential check has passed, a storage error raised
while recording the heartbeat is caught and never reaches the caller — the
response is identical to the one returned had the heartbeat succeeded; in
either case the claim loop runs and determines both the response and the
final transactions table; and when the schema adapter resolves no key
column the heartbeat table is left untouched — recording is silently
skipped. -/
theorem heartbeat_containment (interf : Nat → List Txn → List Txn)
    (cols : List String) (ip fw : String) (now : Int) (db : DBState)
    (sidRaw tokenHdr : String) (s : Store)
    (hsid : (jsTrim sidRaw) ≠ "") (htok : (jsTrim tokenHdr) ≠ "")
    (hsome : findStore db.stores (jsTrim sidRaw) = some s)
    (hen : s.enabled = 1)
    (htokm : (jsTrim s.device_token) = (jsTrim tokenHdr)) :
    ((nextTxHandler interf cols true ip fw now db sidRaw tokenHdr).1 =
      (nextTxHandler interf cols false ip fw now db sidRaw tokenHdr).1) ∧
    (∀ hbFail,
      (nextTxHandler interf cols hbFail ip fw now db sidRaw tokenHdr).1 =
        respOfClaim (jsTrim sidRaw)
          (claimLoopI interf (jsTrim sidRaw) 3 db.txns).1 ∧
      (nextTxHandler interf cols hbFail ip fw now db sidRaw tokenHdr).2.txns =
        (claimLoopI interf (jsTrim sidRaw) 3 db.txns).2.1) ∧
    (pickHeartbeatKey cols = none → ∀ hbFail,
      (nextTxHandler interf cols hbFail ip fw now db sidRaw tokenHdr).2.hbs =
        db.hbs) := by
  have hs' : ((jsTrim sidRaw) == "") = false := by simpa using hsid
  have ht' : ((jsTrim tokenHdr) == "") = false := by simpa using htok
  have hb : (s.enabled != 1) = false := by simp [hen]
  have hb2 : ((jsTrim s.device_token) != (jsTrim tokenHdr)) = false := by
    simpa using htokm
  have hrun : ∀ hbFail,
      nextTxHandler interf cols hbFail ip fw now db sidRaw tokenHdr =
        (respOfClaim (jsTrim sidRaw)
          (claimLoopI interf (jsTrim sidRaw) 3 db.txns).1,
         { db with
             hbs :=
               if hbFail then db.hbs
               else recordHeartbeat cols (jsTrim sidRaw) (jsTrim tokenHdr)
                 ip fw now db.hbs
             txns := (claimLoopI interf (jsTrim sidRaw) 3 db.txns).2.1 }) := by
    intro hbFail
    simp [nextTxHandler, hs', ht', hsome, hb, hb2]
  refine ⟨?_, ?_, ?_⟩
  · rw [hrun true, hrun false]
  · intro hbFail
    rw [hrun hbFail]
    exact ⟨rfl, rfl⟩
  · intro hkey hbFail
    rw [hrun hbFail]
    cases hbFail with
    | true => rfl
    | false =>
      show recordHeartbeat cols (jsTrim sidRaw) (jsTrim tokenHdr)
        ip fw now db.hbs = db.hbs
      simp [recordHeartbeat, hkey]

/-- Witness for `heartbeat_containment`: a failing heartbeat write does
not change the claim result of a valid poll. -/
theorem heartbeat_containment_witness :
    (nextTxHandler (fun _ t => t) ["device_token", "last_seen"] true
        "1.2.3.4" "fw1" 0 ⟨[⟨"S1", "Toko", "tok1", 1⟩],
        [⟨1, "tx1", "S1", 100, 0⟩], []⟩ "S1" "tok1").1 =
      (nextTxHandler (fun _ t => t) ["device_token", "last_seen"] false
        "1.2.3.4" "fw1" 0 ⟨[⟨"S1", "Toko", "tok1", 1⟩],
        [⟨1, "tx1", "S1", 100, 0⟩], []⟩ "S1" "tok1").1 :=
  (heartbeat_containment (fun _ t => t) ["device_token", "last_seen"]
      "1.2.3.4" "fw1" 0 ⟨[⟨"S1", "Toko", "tok1", 1⟩],
      [⟨1, "tx1", "S1", 100, 0⟩], []⟩ "S1" "tok1"
      ⟨"S1", "Toko", "tok1", 1⟩ (by decide) (by decide) (by decide) rfl
      (by decide)).1

/- ===== Theorems: offline-alert window (C6) ===== -/

/-- Claim C6: when the join predicate resolves, a scheduler run selects
exactly the devices of enabled stores whose `last_seen` is strictly older
than 30 minutes but strictly newer than 24 hours before now — so a device
whose last-seen timestamp is 24 hours or more stale (for instance 25
hours) is never selected — and dispatches, for each selected device, an
alert carrying the store name and the offline time
`floor((now - last_seen) / 60000)` minutes. -/
theorem offline_alert_window (cols : List String) (e : String)
    (hjoin : getHeartbeatJoinExpr cols = some e) (now : Int)
    (rows : List JoinedRow) :
    scheduledJob cols now rows = scheduledAlerts now rows ∧
    (∀ r ∈ rows, r ∈ offlineSelect now rows ↔
      (r.enabled = 1 ∧ r.last_seen < now - 30 * 60000 ∧
       now - 24 * 3600000 < r.last_seen)) ∧
    scheduledAlerts now rows =
      (offlineSelect now rows).map
        (fun r => (r.name, Int.fdiv (now - r.last_seen) 60000)) ∧
    (∀ r ∈ rows, 24 * 3600000 ≤ now - r.last_seen →
      r ∉ offlineSelect now rows) := by
  refine ⟨?_, ?_, rfl, ?_⟩
  · simp [scheduledJob, hjoin]
  · intro r hr
    rw [offlineSelect, List.mem_filter]
    simp [offlineWindow, hr, and_assoc]
  · intro r hr hle hmem
    rw [offlineSelect, List.mem_filter] at hmem
    have hw := hmem.2
    simp only [offlineWindow, Bool.and_eq_true, decide_eq_true_eq,
      gt_iff_lt] at hw
    omega

/-- Witness for `offline_alert_window`: a device 90 minutes stale on an
enabled store is selected. -/
theorem offline_alert_window_witness :
    (⟨"Toko A", "S1", 1, 0⟩ : JoinedRow) ∈
      offlineSelect 5400000 [⟨"Toko A", "S1", 1, 0⟩] :=
  ((offline_alert_window ["device_token"] "s.device_token = d.device_token"
      (by decide) 5400000 [⟨"Toko A", "S1", 1, 0⟩]).2.1
    ⟨"Toko A", "S1", 1, 0⟩ (by decide)).mpr (by decide)

/- ===== Theorems: admin store upsert (C10) ===== -/

/-- With unique `store_id`s, the `LIMIT 1` lookup of an existing row finds
exactly that row. -/
theorem findStore_nodup {stores : List Store} {x : String} {s : Store}
    (hnodup : (stores.map (fun u => u.store_id)).Nodup)
    (hs : s ∈ stores) (hx : s.store_id = x) :
    findStore stores x = some s := by
  induction stores with
  | nil => cases hs
  | cons a l ih =>
    have hnd : a.store_id ∉ l.map (fun u => u.store_id) ∧
        (l.map (fun u => u.store_id)).Nodup := by
      simpa [List.nodup_cons] using hnodup
    rcases List.mem_cons.mp hs with rfl | hmem
    · rw [findStore, List.find?_cons_of_pos _ (by simp [hx])]
    · have hne : (a.store_id == x) = false := by
        simp only [beq_eq_false_iff_ne, ne_eq]
        intro hcontra
        exact hnd.1 (List.mem_map.mpr ⟨s, hmem, by rw [hx, ← hcontra]⟩)
      rw [findStore, List.find?_cons_of_neg _ (by simp [hne])]
      exact ih hnd.2 hmem

/-- Claim C10: the admin upsert always writes `enabled=1`, so upserting an
existing, currently disabled store re-enables it even though the request
body carries no enabled field; the stored token is the provided token
whenever one is given (overwrite), the existing token when none is given
and the existing one is nonempty, and the freshly generated token
otherwise. -/
theorem admin_upsert_reenables (db : DBState)
    (storeIdRaw nameRaw tokenRaw freshToken : String) (s : Store)
    (hnodup : (db.stores.map (fun u => u.store_id)).Nodup)
    (hs : s ∈ db.stores) (hsid : s.store_id = (jsTrim storeIdRaw))
    (hsidne : (jsTrim storeIdRaw) ≠ "") (hname : (jsTrim nameRaw) ≠ "")
    (hvalid : validStoreId (jsTrim storeIdRaw) = true) :
    (∀ s2 ∈ (adminUpsertStore db storeIdRaw nameRaw tokenRaw
        freshToken).2.stores,
      s2.store_id = (jsTrim storeIdRaw) →
      s2.enabled = 1 ∧
      s2.device_token =
        (if (jsTrim tokenRaw) ≠ "" then (jsTrim tokenRaw)
         else if s.device_token ≠ "" then s.device_token else freshToken)) ∧
    (adminUpsertStore db storeIdRaw nameRaw tokenRaw freshToken).1 =
      .jsonStoreUpserted (jsTrim storeIdRaw) (jsTrim nameRaw)
        (if (jsTrim tokenRaw) ≠ "" then (jsTrim tokenRaw)
         else if s.device_token ≠ "" then s.device_token else freshToken) := by
  have hfind : findStore db.stores (jsTrim storeIdRaw) = some s :=
    findStore_nodup hnodup hs hsid
  have htok : upsertToken db.stores (jsTrim storeIdRaw) (jsTrim tokenRaw)
      freshToken =
      (if (jsTrim tokenRaw) ≠ "" then (jsTrim tokenRaw)
       else if s.device_token ≠ "" then s.device_token else freshToken) := by
    by_cases hp : (jsTrim tokenRaw) = ""
    · by_cases hd : s.device_token = "" <;>
        simp [upsertToken, hp, hfind, hd]
    · simp [upsertToken, hp, hfind]
  have hcond : ((jsTrim storeIdRaw) == "" || (jsTrim nameRaw) == "") = false := by
    simp [hsidne, hname]
  have hany : (db.stores.any (fun u => u.store_id == (jsTrim storeIdRaw)))
      = true :=
    List.any_eq_true.mpr ⟨s, hs, by simp [hsid]⟩
  have hst : (adminUpsertStore db storeIdRaw nameRaw tokenRaw
      freshToken).2.stores =
      db.stores.map (fun u =>
        if u.store_id == (jsTrim storeIdRaw) then
          ⟨u.store_id, (jsTrim nameRaw),
           upsertToken db.stores (jsTrim storeIdRaw) (jsTrim tokenRaw)
             freshToken, 1⟩
        else u) := by
    simp [adminUpsertStore, hcond, hvalid, upsertStores, hany]
  constructor
  · intro s2 h2 hid2
    rw [hst] at h2
    obtain ⟨u, hu, heq⟩ := List.mem_map.mp h2
    cases hc : (u.store_id == (jsTrim storeIdRaw)) with
    | true =>
      rw [hc, if_pos rfl] at heq
      rw [← heq]
      exact ⟨rfl, htok⟩
    | false =>
      rw [hc] at heq
      simp only [Bool.false_eq_true, if_false] at heq
      exfalso
      rw [heq] at hc
      simp [hid2] at hc
  · simp [adminUpsertStore, hcond, hvalid, htok]

/-- Witness for `admin_upsert_reenables`: upserting a disabled store with
no token in the body re-enables it and keeps its token. -/
theorem admin_upsert_reenables_witness :
    (adminUpsertStore ⟨[⟨"S1", "Old", "tokOld", 0⟩], [], []⟩
        "S1" "New" "" "sb_fresh").1 =
      .jsonStoreUpserted "S1" "New" "tokOld" := by
  have h := (admin_upsert_reenables ⟨[⟨"S1", "Old", "tokOld", 0⟩], [], []⟩
      "S1" "New" "" "sb_fresh" ⟨"S1", "Old", "tokOld", 0⟩ (by decide)
      (by decide) (by decide) (by decide) (by decide) (by decide)).2
  rw [h]
  decide
